import Mathlib

/-!
Verification of the OpenAPI-to-MCP generator (`src/openapi_to_mcp.py`).

The generator works over parsed JSON documents (Python dicts, lists, strings,
numbers, booleans, `None`).  We embed those values as the inductive type
`JVal`, with Python `dict` semantics modelled on association lists that keep
insertion order (assignment to an existing key replaces the value in place,
assignment to a fresh key appends; `dict.get` returns the stored value even
when it is `None`, and the supplied default only when the key is absent).

Places where the Python source would raise (`.get` on a non-dict, iterating a
non-iterable, subscripting a missing key) are modelled by benign defaults;
every theorem that depends on such a position carries hypotheses keeping the
input inside the well-formed region where the model and the source agree.
-/

set_option autoImplicit false

/-- A parsed JSON value, as the Python generator sees it after `json.load`. -/
inductive JVal where
  | null
  | bool (b : Bool)
  | num (n : Int)
  | str (s : String)
  | arr (xs : List JVal)
  | obj (kvs : List (String × JVal))

/-- First binding of key `k` in an association list (Python dict lookup). -/
def dget : List (String × JVal) → String → Option JVal
  | [], _ => none
  | (k', v') :: rest, k => if k' = k then some v' else dget rest k

/-- Python dict assignment `d[k] = v`: replace in place if the key exists
(keeping its position), append otherwise. -/
def dset : List (String × JVal) → String → JVal → List (String × JVal)
  | [], k, v => [(k, v)]
  | (k', v') :: rest, k, v => if k' = k then (k, v) :: rest else (k', v') :: dset rest k v

/-- Python `d.get(k, default)`: the stored value when the key is present
(even if that value is JSON null), the default otherwise.  On a non-dict the
source would raise `AttributeError`; we return the default. -/
def jgetD (j : JVal) (k : String) (d : JVal) : JVal :=
  match j with
  | JVal.obj kvs => (dget kvs k).getD d
  | _ => d

/-- Python `k in d` for a dict (key membership). -/
def hasKey (j : JVal) (k : String) : Bool :=
  match j with
  | JVal.obj kvs => (dget kvs k).isSome
  | _ => false

/-- The entry list of a JSON object (Python `d.items()`); `[]` on non-dicts,
where the source would raise. -/
def objEntries : JVal → List (String × JVal)
  | JVal.obj kvs => kvs
  | _ => []

/-- Python `j == s` for a string literal `s`: true exactly when `j` is that
string (values of other types never compare equal to a `str`). -/
def isStrEq (j : JVal) (s : String) : Bool :=
  match j with
  | JVal.str t => t == s
  | _ => false

/-- The underlying text of a JSON string; `""` on other values (positions
using this require a string in any well-formed document). -/
def asStr : JVal → String
  | JVal.str s => s
  | _ => ""

/-- Python truthiness of a JSON value. -/
def pyTruthy : JVal → Bool
  | JVal.null => false
  | JVal.bool b => b
  | JVal.num n => n != 0
  | JVal.str s => !s.isEmpty
  | JVal.arr xs => !xs.isEmpty
  | JVal.obj kvs => !kvs.isEmpty

/-- Whether a value is JSON null (Python `v is None`). -/
def JVal.isNull : JVal → Bool
  | JVal.null => true
  | _ => false

/-- Python iteration over a value: lists yield elements, strings yield their
characters, dicts yield their keys.  Iterating anything else raises in the
source; we yield nothing. -/
def pyIter : JVal → List JVal
  | JVal.arr xs => xs
  | JVal.str s => s.data.map (fun c => JVal.str (String.mk [c]))
  | JVal.obj kvs => kvs.map (fun kv => JVal.str kv.1)
  | _ => []

/-- Python `str(v)` as used in f-string interpolation.  Containers are not
rendered faithfully; every theorem interpolating a value assumes it is a
string. -/
def pyStr : JVal → String
  | JVal.str s => s
  | JVal.num n => toString n
  | JVal.bool b => if b then "True" else "False"
  | JVal.null => "None"
  | JVal.arr _ => "[...]"
  | JVal.obj _ => "\x7b...\x7d"

/-- Whether `a` starts with `needle` (character lists). -/
def listStartsWith : List Char → List Char → Bool
  | [], _ => true
  | _ :: _, [] => false
  | a :: as, b :: bs => a == b && listStartsWith as bs

/-- Python `needle in hay` for strings: substring containment. -/
def containsSub (needle : List Char) : List Char → Bool
  | [] => needle.isEmpty
  | c :: t => listStartsWith needle (c :: t) || containsSub needle t

/-- Python `name in container`: element equality for lists, key membership
for dicts, substring for strings; anything else raises (modelled `false`). -/
def pyIn (name : String) (container : JVal) : Bool :=
  match container with
  | JVal.arr xs => xs.any (fun v => isStrEq v name)
  | JVal.obj kvs => kvs.any (fun kv => kv.1 == name)
  | JVal.str s => containsSub name.data s.data
  | _ => false

/-- Python `s.lower()` (ASCII). -/
def pyLowerStr (s : String) : String := String.mk (s.data.map Char.toLower)

/-- Python `s.upper()` (ASCII). -/
def pyUpperStr (s : String) : String := String.mk (s.data.map Char.toUpper)

/-- Python `s.split('/')` on character lists: all chunks, empties included. -/
def splitSlash : List Char → List (List Char)
  | [] => [[]]
  | c :: rest =>
    if c = '/' then [] :: splitSlash rest
    else
      match splitSlash rest with
      | seg :: segs => (c :: seg) :: segs
      | [] => [[c]]

/-- Join character-list segments with `'/'` (left inverse of `splitSlash`). -/
def joinSlash : List (List Char) → List Char
  | [] => []
  | [s] => s
  | s :: rest => s ++ '/' :: joinSlash rest

/-- Scan to the first `'}'`: `some (before, after)` when one exists. -/
def takeToRBrace : List Char → Option (List Char × List Char)
  | [] => none
  | c :: rest =>
    if c = '}' then some ([], rest)
    else
      match takeToRBrace rest with
      | some (pre, post) => some (c :: pre, post)
      | none => none

theorem takeToRBrace_length : ∀ (l pre post : List Char),
    takeToRBrace l = some (pre, post) → post.length < l.length := by
  intro l
  induction l with
  | nil => intro pre post h; simp [takeToRBrace] at h
  | cons c rest ih =>
    intro pre post h
    by_cases hc : c = '}'
    · simp [takeToRBrace, hc] at h
      simp [← h.2]
    · simp only [takeToRBrace, hc, if_false] at h
      cases hk : takeToRBrace rest with
      | none => simp [hk] at h
      | some pr =>
        simp [hk] at h
        have := ih pr.1 pr.2 (by simp [hk])
        simp [← h.2]
        omega

/-- Fuel-indexed worker for `stripParams`; the fuel only bounds recursion
depth and never runs out when it starts at the input length. -/
def stripParamsFuel : Nat → List Char → List Char
  | 0, l => l
  | _ + 1, [] => []
  | fuel + 1, c :: rest =>
    if c = '{' then
      match takeToRBrace rest with
      | some (pre, post) =>
        if pre.isEmpty then c :: stripParamsFuel fuel rest else stripParamsFuel fuel post
      | none => c :: rest
    else c :: stripParamsFuel fuel rest

theorem stripParamsFuel_eq : ∀ (f1 : Nat) (l : List Char) (f2 : Nat),
    l.length ≤ f1 → l.length ≤ f2 → stripParamsFuel f1 l = stripParamsFuel f2 l := by
  intro f1
  induction f1 with
  | zero =>
    intro l f2 h1 _
    have : l = [] := List.eq_nil_of_length_eq_zero (Nat.le_zero.mp h1)
    subst this
    cases f2 <;> rfl
  | succ f1 ih =>
    intro l f2 h1 h2
    cases l with
    | nil => cases f2 <;> rfl
    | cons c rest =>
      have hr : rest.length ≤ f1 := by simp at h1; omega
      cases f2 with
      | zero => simp at h2
      | succ f2 =>
        have hr2 : rest.length ≤ f2 := by simp at h2; omega
        by_cases hc : c = '{'
        · simp only [stripParamsFuel, hc, if_true]
          cases hk : takeToRBrace rest with
          | none => rfl
          | some pr =>
            obtain ⟨pre, post⟩ := pr
            have hpost : post.length < rest.length := takeToRBrace_length rest pre post hk
            by_cases hpre : pre.isEmpty
            · simp [hpre, ih rest f2 hr hr2]
            · simp [hpre, ih post f2 (by omega) (by omega)]
        · simp only [stripParamsFuel, hc, if_false]
          rw [ih rest f2 hr hr2]

/-- Python `re.sub(r'\x7b[^\x7d]+\x7d', '', path)`: repeatedly delete a
`'{'`, a non-empty run of non-`'}'` characters, and the closing `'}'`,
scanning left to right. -/
def stripParams (l : List Char) : List Char := stripParamsFuel l.length l

theorem stripParams_nil : stripParams [] = [] := rfl

theorem stripParams_cons (c : Char) (rest : List Char) :
    stripParams (c :: rest) =
      (if c = '{' then
        match takeToRBrace rest with
        | some (pre, post) =>
          if pre.isEmpty then c :: stripParams rest else stripParams post
        | none => c :: rest
      else c :: stripParams rest) := by
  show stripParamsFuel (rest.length + 1) (c :: rest) = _
  by_cases hc : c = '{'
  · simp only [stripParamsFuel, hc, if_true]
    cases hk : takeToRBrace rest with
    | none => rfl
    | some pr =>
      obtain ⟨pre, post⟩ := pr
      have hpost : post.length < rest.length := takeToRBrace_length rest pre post hk
      by_cases hpre : pre.isEmpty
      · simp [hpre, stripParams, stripParamsFuel_eq rest.length rest (rest.length) le_rfl le_rfl]
      · simp only [hpre, if_false, stripParams]
        exact stripParamsFuel_eq rest.length post post.length (by omega) le_rfl
  · simp only [stripParamsFuel, hc, if_false, stripParams]

/-- Python `s.capitalize()`: first character upper-cased, the rest
lower-cased (ASCII). -/
def pyCapitalize : List Char → List Char
  | [] => []
  | c :: rest => c.toUpper :: rest.map Char.toLower

/-- Python `ref_path.split('/')[-1]`. -/
def refLastSeg (s : String) : String :=
  String.mk ((splitSlash s.data).getLastD [])

theorem dget_sizeOf_lt {kvs : List (String × JVal)} {k : String} {v : JVal}
    (h : dget kvs k = some v) : sizeOf v < 1 + sizeOf kvs := by
  induction kvs with
  | nil => simp [dget] at h
  | cons kv rest ih =>
    obtain ⟨k', v'⟩ := kv
    by_cases hk : k' = k
    · simp [dget, hk] at h
      subst h
      simp
      omega
    · simp [dget, hk] at h
      have := ih h
      simp
      omega

theorem dget_ne_nil {kvs : List (String × JVal)} {k : String} {v : JVal}
    (h : dget kvs k = some v) : kvs ≠ [] := by
  intro hnil; subst hnil; simp [dget] at h

/-- `_get_typescript_type`: map an OpenAPI schema fragment to a TypeScript
type expression. -/
def _get_typescript_type (schema : JVal) : String :=
  match htype : jgetD schema "type" (JVal.str "any") with
  | JVal.str "string" =>
    if pyTruthy (jgetD schema "enum" JVal.null) then
      String.intercalate " | "
        ((pyIter (jgetD schema "enum" JVal.null)).map (fun v => "\"" ++ pyStr v ++ "\""))
    else "string"
  | JVal.str "integer" => "number"
  | JVal.str "number" => "number"
  | JVal.str "boolean" => "boolean"
  | JVal.str "array" => _get_typescript_type (jgetD schema "items" (JVal.obj [])) ++ "[]"
  | JVal.str "object" => "any"
  | _ => "any"
termination_by sizeOf schema
decreasing_by
  cases schema with
  | obj kvs =>
    simp only [jgetD] at htype ⊢
    cases hty : dget kvs "type" with
    | none => rw [hty] at htype; simp at htype
    | some tv =>
      cases hit : dget kvs "items" with
      | none =>
        simp only [Option.getD_none]
        have hne : kvs ≠ [] := dget_ne_nil hty
        cases kvs with
        | nil => exact absurd rfl hne
        | cons a t => obtain ⟨a1, a2⟩ := a; simp; omega
      | some iv =>
        simp only [Option.getD_some]
        simpa using dget_sizeOf_lt hit
  | null => simp [jgetD] at htype
  | bool b => simp [jgetD] at htype
  | num n => simp [jgetD] at htype
  | str s => simp [jgetD] at htype
  | arr xs => simp [jgetD] at htype

/-- The generator state built by `OpenAPIToMCP.__init__` from the parsed
specification document. -/
structure OpenAPIToMCP where
  info : JVal
  servers : JVal
  paths : JVal
  components : JVal
  security : JVal

/-- `OpenAPIToMCP.__init__`: pull the top-level sections out of the parsed
document, with the same defaults the source uses. -/
def OpenAPIToMCP.ofSpec (spec : JVal) : OpenAPIToMCP :=
  { info := jgetD spec "info" (JVal.obj [])
  , servers := jgetD spec "servers" (JVal.arr [])
  , paths := jgetD spec "paths" (JVal.obj [])
  , components := jgetD spec "components" (JVal.obj [])
  , security := jgetD spec "security" (JVal.arr []) }

/-- The lines `_generate_interface` renders for one property: an optional
doc-comment line followed by exactly one field line. -/
def interfacePropLines (required : JVal) (kv : String × JVal) : List String :=
  let propType := _get_typescript_type kv.2
  let opt := if pyIn kv.1 required then "" else "?"
  let description := jgetD kv.2 "description" (JVal.str "")
  (if pyTruthy description then ["  /** " ++ pyStr description ++ " */"] else []) ++
    ["  " ++ kv.1 ++ opt ++ ": " ++ propType ++ ";"]

/-- `_generate_interface`: render one TypeScript interface; the empty string
for a schema whose top-level `type` is not `object`. -/
def _generate_interface (name : String) (schema : JVal) : String :=
  if !isStrEq (jgetD schema "type" JVal.null) "object" then ""
  else
    let properties := objEntries (jgetD schema "properties" (JVal.obj []))
    let required := jgetD schema "required" (JVal.arr [])
    String.intercalate "\n"
      (("interface " ++ name ++ " \x7b") :: (properties.flatMap (interfacePropLines required) ++ ["\x7d"]))

/-- The body of `generate_typescript_interfaces` on an explicit schema list:
render every interface, keep the non-empty ones, join with blank lines. -/
def interfacesOf (schemas : List (String × JVal)) : String :=
  String.intercalate "\n\n"
    ((schemas.map (fun kv => _generate_interface kv.1 kv.2)).filter (fun s => !s.isEmpty))

/-- `generate_typescript_interfaces`. -/
def OpenAPIToMCP.generate_typescript_interfaces (g : OpenAPIToMCP) : String :=
  interfacesOf (objEntries (jgetD g.components "schemas" (JVal.obj [])))

/-- The non-empty path segments left after deleting `\x7bparam\x7d` blocks
(`clean_path.split('/')` filtered to truthy parts). -/
def cleanParts (path : String) : List (List Char) :=
  (splitSlash (stripParams path.data)).filter (fun p => !p.isEmpty)

/-- The verb chosen for a method by `_generate_operation_id`. -/
def methodVerb (path method : String) : String :=
  let m := pyLowerStr method
  if m = "get" then "get"
  else if m = "post" then (if containsSub "create".data (pyLowerStr path).data then "create" else "post")
  else if m = "put" then "update"
  else if m = "delete" then "delete"
  else m

/-- Python `word.capitalize()` packaged on a segment. -/
def capSeg (p : List Char) : String := String.mk (pyCapitalize p)

/-- `_generate_operation_id`: synthesize a tool name from path and method. -/
def _generate_operation_id (path method : String) : String :=
  let parts := cleanParts path
  if !parts.isEmpty then methodVerb path method ++ String.join (parts.map capSeg)
  else methodVerb path method ++ "Root"

/-- The property entry `_generate_input_schema` stores for one path or query
parameter. -/
def paramProp (param : JVal) : JVal :=
  let paramSchema := jgetD param "schema" (JVal.obj [("type", JVal.str "string")])
  JVal.obj [("type", jgetD paramSchema "type" (JVal.str "string")),
            ("description", jgetD param "description" (JVal.str ""))]

/-- One pass of `_generate_input_schema` over the parameter list, keeping the
parameters whose `in` equals `loc`: set each property (dict assignment) and
append each required name, in list order. -/
def addParamsAt (loc : String) :
    List JVal → List (String × JVal) → List String → List (String × JVal) × List String
  | [], props, req => (props, req)
  | param :: rest, props, req =>
    if isStrEq (jgetD param "in" JVal.null) loc then
      let props' := dset props (asStr (jgetD param "name" JVal.null)) (paramProp param)
      let req' := if pyTruthy (jgetD param "required" (JVal.bool false)) then
          req ++ [asStr (jgetD param "name" JVal.null)]
        else req
      addParamsAt loc rest props' req'
    else addParamsAt loc rest props req

/-- The filtered entry a body property contributes: the five copied fields
with the `None`-valued ones removed (`\x7bk: v for k, v in ... if v is not
None\x7d`). -/
def bodyPropEntry (propDef : JVal) : JVal :=
  JVal.obj (([("type", jgetD propDef "type" (JVal.str "string")),
      ("description", jgetD propDef "description" (JVal.str "")),
      ("enum", jgetD propDef "enum" JVal.null),
      ("minimum", jgetD propDef "minimum" JVal.null),
      ("maximum", jgetD propDef "maximum" JVal.null)] : List (String × JVal)).filter
    (fun kv => !kv.2.isNull))

/-- The one-hop `$ref` resolution in `_generate_input_schema`: a pointer with
the `#/components/schemas/` prefix is replaced by the named registry entry
(empty dict when missing); any other schema is kept as-is. -/
def resolveBodySchema (g : OpenAPIToMCP) (bodySchema : JVal) : JVal :=
  if hasKey bodySchema "$ref" then
    let refPath := asStr (jgetD bodySchema "$ref" JVal.null)
    if listStartsWith "#/components/schemas/".data refPath.data then
      jgetD (jgetD g.components "schemas" (JVal.obj [])) (refLastSeg refPath) (JVal.obj [])
    else bodySchema
  else bodySchema

/-- The request-body step of `_generate_input_schema`: when `requestBody` is
truthy, take the `application/json` schema, resolve a `$ref` one hop, and if
the result has `type == object` merge its properties and extend the required
list. -/
def addBody (g : OpenAPIToMCP) (op : JVal) :
    List (String × JVal) → List String → List (String × JVal) × List String :=
  fun props req =>
    let requestBody := jgetD op "requestBody" JVal.null
    if pyTruthy requestBody then
      let content := jgetD requestBody "content" (JVal.obj [])
      let jsonContent := jgetD content "application/json" (JVal.obj [])
      let bodySchema := resolveBodySchema g (jgetD jsonContent "schema" (JVal.obj []))
      if isStrEq (jgetD bodySchema "type" JVal.null) "object" then
        let properties := objEntries (jgetD bodySchema "properties" (JVal.obj []))
        let required := jgetD bodySchema "required" (JVal.arr [])
        ((properties.foldl (fun acc kv => dset acc kv.1 (bodyPropEntry kv.2)) props),
          req ++ (pyIter required).map asStr)
      else (props, req)
    else (props, req)

/-- `_generate_input_schema`: path parameters, then query parameters, then
request-body properties, assembled into the fixed three-key result dict. -/
def OpenAPIToMCP._generate_input_schema (g : OpenAPIToMCP) (op : JVal) : JVal :=
  let params := pyIter (jgetD op "parameters" (JVal.arr []))
  let st1 := addParamsAt "path" params [] []
  let st2 := addParamsAt "query" params st1.1 st1.2
  let st3 := addBody g op st2.1 st2.2
  JVal.obj [("type", JVal.str "object"),
            ("properties", JVal.obj st3.1),
            ("required", JVal.arr (st3.2.map JVal.str))]

/-- `_generate_tool`: build the tool dict for one operation (the source's
`Optional` return is never `None`, so we return the dict directly). -/
def OpenAPIToMCP._generate_tool (g : OpenAPIToMCP) (path method : String) (op : JVal) : JVal :=
  let opIdRaw := jgetD op "operationId" JVal.null
  let name := if pyTruthy opIdRaw then opIdRaw
    else JVal.str (_generate_operation_id path method)
  let summary := jgetD op "summary" (JVal.str "")
  let description := jgetD op "description" summary
  JVal.obj [("name", name),
            ("method", JVal.str method),
            ("path", JVal.str path),
            ("summary", summary),
            ("description", description),
            ("input_schema", g._generate_input_schema op),
            ("responses", jgetD op "responses" (JVal.obj [])),
            ("request_body", jgetD op "requestBody" JVal.null)]

/-- The HTTP methods `generate_tools` accepts. -/
def allowedMethods : List String := ["get", "post", "put", "delete", "patch"]

/-- `generate_tools`: for each path, for each method key whose lower-case
form is an allowed HTTP method, build one tool and append it when truthy. -/
def OpenAPIToMCP.generate_tools (g : OpenAPIToMCP) : List JVal :=
  (objEntries g.paths).foldl
    (fun tools pm =>
      (objEntries pm.2).foldl
        (fun tools mo =>
          if allowedMethods.contains (pyLowerStr mo.1) then
            let tool := g._generate_tool pm.1 (pyUpperStr mo.1) mo.2
            if pyTruthy tool then tools ++ [tool] else tools
          else tools)
        tools)
    []

/-- `get_security_info`. -/
def OpenAPIToMCP.get_security_info (g : OpenAPIToMCP) : JVal :=
  JVal.obj [("schemes", jgetD g.components "securitySchemes" (JVal.obj [])),
            ("requirements", g.security)]

/-- The loop body of `_generate_auth_headers`: the rendered header line of
the first scheme with `type == apiKey`, or the empty string. -/
def firstApiKeyHeader : List (String × JVal) → String
  | [] => ""
  | (_, scheme) :: rest =>
    if isStrEq (jgetD scheme "type" JVal.null) "apiKey" then
      "'" ++ pyStr (jgetD scheme "name" (JVal.str "X-API-Key")) ++ "': API_KEY,"
    else firstApiKeyHeader rest

/-- `_generate_auth_headers`. -/
def _generate_auth_headers (securityInfo : JVal) : String :=
  firstApiKeyHeader (objEntries (jgetD securityInfo "schemes" (JVal.obj [])))

/-- `_generate_request_config`: the extra axios config; the `data: args`
line exactly when the tool's stored `request_body` is truthy and the method
upper-cases into POST/PUT/PATCH. -/
def _generate_request_config (tool : JVal) : String :=
  if pyTruthy (jgetD tool "request_body" JVal.null)
      && (["POST", "PUT", "PATCH"] : List String).contains (pyUpperStr (asStr (jgetD tool "method" JVal.null))) then
    "\n" ++ "        data: args,"
  else ""

/-- `get_base_url`. -/
def OpenAPIToMCP.get_base_url (g : OpenAPIToMCP) : String :=
  match g.servers with
  | JVal.arr (s :: _) => asStr (jgetD s "url" JVal.null)
  | _ => ""

/-! ## Decomposition of the input-schema synthesizer

The following definitions restate the three merge steps of
`_generate_input_schema` as explicit entry streams, so the merge order and
the last-write-wins policy can be stated and proved. -/

/-- The operation's parameter list. -/
def opParams (op : JVal) : List JVal := pyIter (jgetD op "parameters" (JVal.arr []))

/-- The property entries contributed by the parameters at location `loc`,
in list order. -/
def paramEntriesAt (loc : String) (params : List JVal) : List (String × JVal) :=
  (params.filter (fun p => isStrEq (jgetD p "in" JVal.null) loc)).map
    (fun p => (asStr (jgetD p "name" JVal.null), paramProp p))

/-- The required names contributed by the parameters at location `loc`,
in list order. -/
def requiredNamesAt (loc : String) (params : List JVal) : List String :=
  (params.filter (fun p => isStrEq (jgetD p "in" JVal.null) loc
      && pyTruthy (jgetD p "required" (JVal.bool false)))).map
    (fun p => asStr (jgetD p "name" JVal.null))

/-- Merge an entry stream into a dict, later entries overwriting earlier
same-keyed ones (repeated Python dict assignment). -/
def mergeInto (d : List (String × JVal)) (l : List (String × JVal)) : List (String × JVal) :=
  l.foldl (fun acc kv => dset acc kv.1 kv.2) d

/-- Merge an entry stream into an empty dict. -/
def mergeEntries (l : List (String × JVal)) : List (String × JVal) := mergeInto [] l

/-- The value of the last entry carrying key `k` in a stream. -/
def lastLookup (l : List (String × JVal)) (k : String) : Option JVal :=
  ((l.filter (fun kv => kv.1 == k)).getLast?).map Prod.snd

/-- The JSON request-body schema consulted by `_generate_input_schema`,
before reference resolution. -/
def rawBodySchema (op : JVal) : JVal :=
  jgetD (jgetD (jgetD (jgetD op "requestBody" JVal.null) "content" (JVal.obj []))
      "application/json" (JVal.obj [])) "schema" (JVal.obj [])

/-- The body schema after the one-hop reference resolution. -/
def effBodySchema (g : OpenAPIToMCP) (op : JVal) : JVal :=
  resolveBodySchema g (rawBodySchema op)

/-- Whether the request-body step contributes anything: the operation's
`requestBody` is truthy and the resolved body schema has `type == object`. -/
def bodyActive (g : OpenAPIToMCP) (op : JVal) : Bool :=
  pyTruthy (jgetD op "requestBody" JVal.null)
    && isStrEq (jgetD (effBodySchema g op) "type" JVal.null) "object"

/-- The property entries the request body contributes. -/
def bodyEntries (g : OpenAPIToMCP) (op : JVal) : List (String × JVal) :=
  if bodyActive g op then
    (objEntries (jgetD (effBodySchema g op) "properties" (JVal.obj []))).map
      (fun kv => (kv.1, bodyPropEntry kv.2))
  else []

/-- The required names the request body contributes (its own `required`
array, in full). -/
def bodyRequiredNames (g : OpenAPIToMCP) (op : JVal) : List String :=
  if bodyActive g op then (pyIter (jgetD (effBodySchema g op) "required" (JVal.arr []))).map asStr
  else []

/-- The `properties` dict of a synthesized input schema. -/
def propsOf (j : JVal) : List (String × JVal) := objEntries (jgetD j "properties" (JVal.obj []))

/-- The `required` list of a synthesized input schema, as strings. -/
def requiredStrs (j : JVal) : List String := (pyIter (jgetD j "required" (JVal.arr []))).map asStr

theorem addParamsAt_eq (loc : String) :
    ∀ (params : List JVal) (props : List (String × JVal)) (req : List String),
    addParamsAt loc params props req
      = (mergeInto props (paramEntriesAt loc params), req ++ requiredNamesAt loc params) := by
  intro params
  induction params with
  | nil => intro props req; simp [addParamsAt, paramEntriesAt, requiredNamesAt, mergeInto]
  | cons p rest ih =>
    intro props req
    by_cases hin : isStrEq (jgetD p "in" JVal.null) loc = true
    · by_cases hreq : pyTruthy (jgetD p "required" (JVal.bool false)) = true
      · simp [addParamsAt, hin, hreq, ih, paramEntriesAt, requiredNamesAt, mergeInto,
          List.filter_cons]
      · simp [addParamsAt, hin, hreq, ih, paramEntriesAt, requiredNamesAt, mergeInto,
          List.filter_cons]
    · simp [addParamsAt, hin, ih, paramEntriesAt, requiredNamesAt, mergeInto, List.filter_cons]

theorem addBody_eq (g : OpenAPIToMCP) (op : JVal)
    (props : List (String × JVal)) (req : List String) :
    addBody g op props req = (mergeInto props (bodyEntries g op), req ++ bodyRequiredNames g op) := by
  have hraw : resolveBodySchema g (jgetD (jgetD (jgetD (jgetD op "requestBody" JVal.null)
      "content" (JVal.obj [])) "application/json" (JVal.obj [])) "schema" (JVal.obj []))
      = effBodySchema g op := rfl
  by_cases hrb : pyTruthy (jgetD op "requestBody" JVal.null) = true
  · by_cases hobj : isStrEq (jgetD (effBodySchema g op) "type" JVal.null) "object" = true
    · simp only [addBody, hrb, if_true, hraw, hobj, bodyEntries, bodyRequiredNames,
        bodyActive, Bool.and_self, mergeInto, List.foldl_map]
    · simp only [addBody, hrb, if_true, hraw, bodyEntries, bodyRequiredNames, bodyActive]
      simp [hobj, mergeInto]
  · simp [addBody, hrb, bodyEntries, bodyRequiredNames, bodyActive, mergeInto]

theorem mergeInto_append (d : List (String × JVal)) (a b : List (String × JVal)) :
    mergeInto d (a ++ b) = mergeInto (mergeInto d a) b := by
  simp [mergeInto, List.foldl_append]

/-- The synthesized input schema, decomposed: the fixed three-key shape, the
properties dict merged from the path, query and body entry streams in that
order, and the required list concatenated from the three steps. -/
theorem input_schema_decomp (g : OpenAPIToMCP) (op : JVal) :
    g._generate_input_schema op = JVal.obj
      [("type", JVal.str "object"),
       ("properties", JVal.obj (mergeEntries
          (paramEntriesAt "path" (opParams op) ++ paramEntriesAt "query" (opParams op)
            ++ bodyEntries g op))),
       ("required", JVal.arr ((requiredNamesAt "path" (opParams op)
            ++ requiredNamesAt "query" (opParams op) ++ bodyRequiredNames g op).map JVal.str))] := by
  simp [OpenAPIToMCP._generate_input_schema, addParamsAt_eq, addBody_eq, opParams,
    mergeEntries, mergeInto_append]

theorem dget_dset (d : List (String × JVal)) (k : String) (v : JVal) (k2 : String) :
    dget (dset d k v) k2 = if k = k2 then some v else dget d k2 := by
  induction d with
  | nil => by_cases h : k = k2 <;> simp [dget, dset, h]
  | cons kv rest ih =>
    obtain ⟨k', v'⟩ := kv
    by_cases h1 : k' = k
    · subst h1
      by_cases h2 : k' = k2 <;> simp [dget, dset, h2]
    · by_cases h2 : k' = k2
      · subst h2
        have hk : ¬k = k' := fun h => h1 h.symm
        simp [dget, dset, h1, hk]
      · simp [dget, dset, h1, h2, ih]

/-- Looking a key up in a merged dict returns the value of the last entry
with that key in the stream (last write wins), falling back to the dict the
stream was merged into. -/
theorem dget_mergeInto (l : List (String × JVal)) (d : List (String × JVal)) (k : String) :
    dget (mergeInto d l) k = (lastLookup l k).or (dget d k) := by
  induction l using List.reverseRecOn generalizing d with
  | nil => simp [mergeInto, lastLookup]
  | append_singleton l kv ih =>
    rw [mergeInto_append]
    simp only [mergeInto, List.foldl_cons, List.foldl_nil]
    rw [dget_dset]
    by_cases hk : kv.1 = k
    · simp [lastLookup, List.filter_append, List.filter_cons, hk, List.getLast?_concat,
        Option.or]
    · have hk' : (kv.1 == k) = false := by simp [hk]
      simp only [lastLookup, List.filter_append, List.filter_cons, hk', Bool.false_eq_true,
        if_false, List.filter_nil, List.append_nil, if_neg hk]
      exact ih d

theorem map_asStr_map_str (names : List String) : (names.map JVal.str).map asStr = names := by
  induction names with
  | nil => rfl
  | cons a t ih => simp [asStr, ih]

theorem requiredStrs_triple (P : List (String × JVal)) (R : List String) :
    requiredStrs (JVal.obj [("type", JVal.str "object"), ("properties", JVal.obj P),
      ("required", JVal.arr (R.map JVal.str))]) = R := by
  have h1 : dget [("type", JVal.str "object"), ("properties", JVal.obj P),
      ("required", JVal.arr (R.map JVal.str))] "required" = some (JVal.arr (R.map JVal.str)) := by
    simp [dget]
  simp [requiredStrs, jgetD, h1, pyIter, List.map_map, Function.comp_def, asStr]

theorem propsOf_triple (P : List (String × JVal)) (R : List String) :
    propsOf (JVal.obj [("type", JVal.str "object"), ("properties", JVal.obj P),
      ("required", JVal.arr (R.map JVal.str))]) = P := by
  have h1 : dget [("type", JVal.str "object"), ("properties", JVal.obj P),
      ("required", JVal.arr (R.map JVal.str))] "properties" = some (JVal.obj P) := by
    simp [dget]
  simp [propsOf, jgetD, h1, objEntries]

/-- C1: the synthesized input schema merges path-parameter entries, then
query-parameter entries, then body-property entries, in that fixed order
with last write winning on same-named properties; the required list is the
concatenation of the path, query and body required names with the body's
`required` appended in full and undeduplicated, so a name required both as a
parameter and as a body field is counted at least twice. -/
theorem C1_input_schema_merge (g : OpenAPIToMCP) (op : JVal) (n : String)
    (hparam : n ∈ requiredNamesAt "path" (opParams op) ++ requiredNamesAt "query" (opParams op))
    (hbody : n ∈ bodyRequiredNames g op) :
    requiredStrs (g._generate_input_schema op)
        = requiredNamesAt "path" (opParams op) ++ requiredNamesAt "query" (opParams op)
          ++ bodyRequiredNames g op
    ∧ propsOf (g._generate_input_schema op)
        = mergeEntries (paramEntriesAt "path" (opParams op)
            ++ paramEntriesAt "query" (opParams op) ++ bodyEntries g op)
    ∧ (∀ k : String, dget (propsOf (g._generate_input_schema op)) k
        = lastLookup (paramEntriesAt "path" (opParams op)
            ++ paramEntriesAt "query" (opParams op) ++ bodyEntries g op) k)
    ∧ 2 ≤ (requiredStrs (g._generate_input_schema op)).count n := by
  have hreq : requiredStrs (g._generate_input_schema op)
      = requiredNamesAt "path" (opParams op) ++ requiredNamesAt "query" (opParams op)
        ++ bodyRequiredNames g op := by
    rw [input_schema_decomp]
    exact requiredStrs_triple _ _
  have hprops : propsOf (g._generate_input_schema op)
      = mergeEntries (paramEntriesAt "path" (opParams op)
          ++ paramEntriesAt "query" (opParams op) ++ bodyEntries g op) := by
    rw [input_schema_decomp]
    exact propsOf_triple _ _
  refine ⟨hreq, hprops, ?_, ?_⟩
  · intro k
    rw [hprops]
    have := dget_mergeInto (paramEntriesAt "path" (opParams op)
        ++ paramEntriesAt "query" (opParams op) ++ bodyEntries g op) [] k
    simpa [mergeEntries, dget] using this
  · rw [hreq, List.count_append]
    have h1 : 1 ≤ (requiredNamesAt "path" (opParams op)
        ++ requiredNamesAt "query" (opParams op)).count n := List.one_le_count_iff.mpr hparam
    have h2 : 1 ≤ (bodyRequiredNames g op).count n := List.one_le_count_iff.mpr hbody
    omega

/-- An empty generator (built from the empty document). -/
def gEmpty : OpenAPIToMCP := OpenAPIToMCP.ofSpec (JVal.obj [])

/-- A registry with one object schema `Pet` requiring its property `x`. -/
def gPets : OpenAPIToMCP := OpenAPIToMCP.ofSpec (JVal.obj [("components", JVal.obj
  [("schemas", JVal.obj [("Pet", JVal.obj [("type", JVal.str "object"),
    ("properties", JVal.obj [("x", JVal.obj [("type", JVal.str "integer")])]),
    ("required", JVal.arr [JVal.str "x"])])])])])

/-- An operation with a required path parameter `x` and a JSON body that
resolves to `Pet` (which also requires `x`). -/
def opDupReq : JVal := JVal.obj
  [("parameters", JVal.arr [JVal.obj [("name", JVal.str "x"), ("in", JVal.str "path"),
      ("required", JVal.bool true)]]),
   ("requestBody", JVal.obj [("content", JVal.obj [("application/json", JVal.obj
      [("schema", JVal.obj [("$ref", JVal.str "#/components/schemas/Pet")])])])])]

/-- Witness for C1 at a concrete operation whose name `x` is required both
as a path parameter and as a body field. -/
theorem C1_input_schema_merge_witness :
    ("x" ∈ requiredNamesAt "path" (opParams opDupReq)
        ++ requiredNamesAt "query" (opParams opDupReq))
    ∧ ("x" ∈ bodyRequiredNames gPets opDupReq)
    ∧ 2 ≤ (requiredStrs (gPets._generate_input_schema opDupReq)).count "x" :=
  ⟨by decide, by decide,
    (C1_input_schema_merge gPets opDupReq "x" (by decide) (by decide)).2.2.2⟩

/-- C10: every synthesized input schema is a dict with exactly the keys
`type`, `properties`, `required` in that order, `type` fixed to `object`;
for an operation with no parameters and no request body the properties dict
and the required list are present and empty. -/
theorem C10_schema_shape (g : OpenAPIToMCP) (op : JVal) :
    (∃ (props : List (String × JVal)) (req : List String),
      g._generate_input_schema op = JVal.obj [("type", JVal.str "object"),
        ("properties", JVal.obj props), ("required", JVal.arr (req.map JVal.str))])
    ∧ (opParams op = [] → pyTruthy (jgetD op "requestBody" JVal.null) = false →
        g._generate_input_schema op = JVal.obj [("type", JVal.str "object"),
          ("properties", JVal.obj []), ("required", JVal.arr [])]) := by
  constructor
  · exact ⟨_, _, input_schema_decomp g op⟩
  · intro hp hr
    rw [input_schema_decomp]
    simp [paramEntriesAt, requiredNamesAt, hp, bodyEntries, bodyRequiredNames, bodyActive,
      hr, mergeEntries, mergeInto]

/-- Witness for C10 at the operation with no parameters and no body. -/
theorem C10_schema_shape_witness :
    opParams (JVal.obj []) = []
    ∧ pyTruthy (jgetD (JVal.obj []) "requestBody" JVal.null) = false
    ∧ gEmpty._generate_input_schema (JVal.obj []) = JVal.obj [("type", JVal.str "object"),
        ("properties", JVal.obj []), ("required", JVal.arr [])] :=
  ⟨rfl, rfl, (C10_schema_shape gEmpty (JVal.obj [])).2 rfl rfl⟩

theorem tool_truthy (g : OpenAPIToMCP) (path method : String) (op : JVal) :
    pyTruthy (g._generate_tool path method op) = true := rfl

theorem foldl_append_if {α β : Type} (p : α → Bool) (f : α → β) :
    ∀ (l : List α) (acc : List β),
    l.foldl (fun acc a => if p a then acc ++ [f a] else acc) acc
      = acc ++ (l.filter p).map f := by
  intro l
  induction l with
  | nil => intro acc; simp
  | cons a t ih =>
    intro acc
    by_cases hp : p a = true
    · simp [List.filter_cons, hp, ih]
    · simp [List.filter_cons, hp, ih]

/-- The per-path tool list: one tool per method key whose lower-case form is
an allowed HTTP method. -/
def toolsForPath (g : OpenAPIToMCP) (pm : String × JVal) : List JVal :=
  ((objEntries pm.2).filter (fun mo => allowedMethods.contains (pyLowerStr mo.1))).map
    (fun mo => g._generate_tool pm.1 (pyUpperStr mo.1) mo.2)

theorem generate_tools_eq (g : OpenAPIToMCP) :
    g.generate_tools = (objEntries g.paths).flatMap (toolsForPath g) := by
  unfold OpenAPIToMCP.generate_tools
  have inner : ∀ (pm : String × JVal) (acc : List JVal),
      (objEntries pm.2).foldl
        (fun tools mo =>
          if allowedMethods.contains (pyLowerStr mo.1) then
            let tool := g._generate_tool pm.1 (pyUpperStr mo.1) mo.2
            if pyTruthy tool then tools ++ [tool] else tools
          else tools)
        acc = acc ++ toolsForPath g pm := by
    intro pm acc
    have := foldl_append_if (fun mo : String × JVal => allowedMethods.contains (pyLowerStr mo.1))
      (fun mo : String × JVal => g._generate_tool pm.1 (pyUpperStr mo.1) mo.2)
      (objEntries pm.2) acc
    simpa [toolsForPath, tool_truthy] using this
  have outer : ∀ (l : List (String × JVal)) (acc : List JVal),
      l.foldl
        (fun tools pm =>
          (objEntries pm.2).foldl
            (fun tools mo =>
              if allowedMethods.contains (pyLowerStr mo.1) then
                let tool := g._generate_tool pm.1 (pyUpperStr mo.1) mo.2
                if pyTruthy tool then tools ++ [tool] else tools
              else tools)
            tools)
        acc = acc ++ l.flatMap (toolsForPath g) := by
    intro l
    induction l with
    | nil => intro acc; simp
    | cons pm t ih =>
      intro acc
      rw [List.foldl_cons, inner pm acc, ih]
      simp [List.flatMap_cons, List.append_assoc]
  simpa using outer (objEntries g.paths) []

/-- C3 (amended): every path/method pair whose lower-cased method is one of
get, post, put, delete, patch yields exactly one tool, in document order;
the tool builder itself never drops an operation (its result is always
truthy, so the `if tool` guard always appends). -/
theorem C3_tools_per_allowed_method (g : OpenAPIToMCP) :
    g.generate_tools = (objEntries g.paths).flatMap (fun pm =>
      ((objEntries pm.2).filter (fun mo => allowedMethods.contains (pyLowerStr mo.1))).map
        (fun mo => g._generate_tool pm.1 (pyUpperStr mo.1) mo.2))
    ∧ (∀ (path method : String) (op : JVal), pyTruthy (g._generate_tool path method op) = true) :=
  ⟨generate_tools_eq g, fun path method op => tool_truthy g path method op⟩

/-- A document whose only operation uses the HTTP method `head`. -/
def gHead : OpenAPIToMCP := OpenAPIToMCP.ofSpec (JVal.obj
  [("paths", JVal.obj [("/a", JVal.obj [("head", JVal.obj [])])])])

/-- C3 counterexample: the document has the path `/a` with the method `head`
under it, yet the pipeline produces no tool at all — an operation whose
method is outside get/post/put/delete/patch is skipped, not translated. -/
theorem C3_head_skipped :
    objEntries gHead.paths = [("/a", JVal.obj [("head", JVal.obj [])])]
    ∧ gHead.generate_tools = [] :=
  ⟨rfl, rfl⟩

/-- C4 counterexample: for the path `/userAccounts` with method GET and no
declared operationId, the synthesizer produces `getUseraccounts` — the
letters after the first character of the segment are lower-cased, not kept
unchanged, so the claimed `getUserAccounts` is not produced. -/
theorem C4_capitalize_lowercases_rest :
    _generate_operation_id "/userAccounts" "GET" = "getUseraccounts"
    ∧ _generate_operation_id "/userAccounts" "GET" ≠ "getUserAccounts" := by
  constructor
  · decide
  · decide

/-- C4 (amended): for an operation lacking a declared operationId whose path
keeps at least one segment after stripping parameter segments, the
synthesized name is the verb followed by each remaining segment with its
first character upper-cased and every later character lower-cased (Python
`str.capitalize`), in path order. -/
theorem C4_name_capitalization (path method : String) (h : cleanParts path ≠ []) :
    _generate_operation_id path method
      = methodVerb path method ++ String.join ((cleanParts path).map capSeg)
    ∧ (∀ (c : Char) (cs : List Char),
        capSeg (c :: cs) = String.mk (c.toUpper :: cs.map Char.toLower)) := by
  constructor
  · have hne : (cleanParts path).isEmpty = false := by
      cases hcp : cleanParts path with
      | nil => exact absurd hcp h
      | cons a t => rfl
    simp [_generate_operation_id, hne]
  · intro c cs
    rfl

/-- Witness for C4 at the path `/userAccounts`. -/
theorem C4_name_capitalization_witness :
    cleanParts "/userAccounts" ≠ []
    ∧ (_generate_operation_id "/userAccounts" "GET"
        = methodVerb "/userAccounts" "GET" ++ String.join ((cleanParts "/userAccounts").map capSeg)
      ∧ ∀ (c : Char) (cs : List Char),
        capSeg (c :: cs) = String.mk (c.toUpper :: cs.map Char.toLower)) :=
  ⟨by decide, C4_name_capitalization "/userAccounts" "GET" (by decide)⟩

theorem takeToRBrace_decompose : ∀ (l pre post : List Char),
    takeToRBrace l = some (pre, post) → l = pre ++ '}' :: post ∧ '}' ∉ pre := by
  intro l
  induction l with
  | nil => intro pre post h; simp [takeToRBrace] at h
  | cons c rest ih =>
    intro pre post h
    by_cases hc : c = '}'
    · subst hc
      simp [takeToRBrace] at h
      obtain ⟨h1, h2⟩ := h
      subst h1; subst h2
      simp
    · simp only [takeToRBrace, hc, if_false] at h
      cases hk : takeToRBrace rest with
      | none => simp [hk] at h
      | some pr =>
        obtain ⟨pre', post'⟩ := pr
        simp [hk] at h
        obtain ⟨h1, h2⟩ := h
        obtain ⟨hd, hnb⟩ := ih pre' post' hk
        subst h1; subst h2
        constructor
        · simp [hd]
        · simp only [List.mem_cons, not_or]
          exact ⟨fun hh => hc hh.symm, hnb⟩

theorem takeToRBrace_append : ∀ (pre t : List Char), '}' ∉ pre →
    takeToRBrace (pre ++ '}' :: t) = some (pre, t) := by
  intro pre
  induction pre with
  | nil => intro t _; simp [takeToRBrace]
  | cons c cs ih =>
    intro t hnb
    have hc : ¬c = '}' := by
      intro h
      exact hnb (h ▸ List.mem_cons_self c cs)
    have hcs : '}' ∉ cs := fun h => hnb (List.mem_cons_of_mem c h)
    simp only [List.cons_append, takeToRBrace, hc, if_false, List.append_eq]
    rw [ih t hcs]

theorem stripParams_slash (l : List Char) : stripParams ('/' :: l) = '/' :: stripParams l := by
  rw [stripParams_cons]
  simp

theorem stripParams_paramseg (pre t : List Char) (hne : pre ≠ []) (hnb : '}' ∉ pre) :
    stripParams ('{' :: (pre ++ '}' :: t)) = stripParams t := by
  rw [stripParams_cons, takeToRBrace_append pre t hnb]
  have hemp : pre.isEmpty = false := by
    cases pre with
    | nil => exact absurd rfl hne
    | cons a b => rfl
  simp [hemp]

/-- Whether a path segment is exactly one `\x7bparam\x7d` block (which the
regex deletes in full). -/
def isParamSeg (seg : List Char) : Bool :=
  match seg with
  | c :: rest =>
    if c = '{' then
      match takeToRBrace rest with
      | some (pre, post) => !pre.isEmpty && post.isEmpty
      | none => false
    else false
  | [] => false

theorem isParamSeg_decompose (seg : List Char) (h : isParamSeg seg = true) :
    ∃ pre, seg = '{' :: (pre ++ ['}']) ∧ pre ≠ [] ∧ '}' ∉ pre := by
  cases seg with
  | nil => simp [isParamSeg] at h
  | cons c rest =>
    by_cases hc : c = '{'
    · subst hc
      simp only [isParamSeg, if_true] at h
      cases hk : takeToRBrace rest with
      | none => rw [hk] at h; simp at h
      | some pr =>
        obtain ⟨pre, post⟩ := pr
        rw [hk] at h
        simp at h
        obtain ⟨hpre, hpost⟩ := h
        obtain ⟨hd, hnb⟩ := takeToRBrace_decompose rest pre post hk
        refine ⟨pre, ?_, ?_, hnb⟩
        · subst hpost; simp [hd]
        · intro hnil; subst hnil; simp at hpre
    · simp [isParamSeg, hc] at h

theorem splitSlash_ne_nil : ∀ (l : List Char), splitSlash l ≠ [] := by
  intro l
  cases l with
  | nil => simp [splitSlash]
  | cons c rest =>
    by_cases hc : c = '/'
    · simp [splitSlash, hc]
    · simp only [splitSlash, hc, if_false]
      cases h : splitSlash rest with
      | nil => simp
      | cons a t => simp

theorem joinSlash_splitSlash : ∀ (l : List Char), joinSlash (splitSlash l) = l := by
  intro l
  induction l with
  | nil => rfl
  | cons c rest ih =>
    by_cases hc : c = '/'
    · subst hc
      simp only [splitSlash, if_true]
      cases h : splitSlash rest with
      | nil => exact absurd h (splitSlash_ne_nil rest)
      | cons a t =>
        show [] ++ '/' :: joinSlash (a :: t) = '/' :: rest
        rw [← h, ih]
        simp
    · simp only [splitSlash, hc, if_false]
      cases h : splitSlash rest with
      | nil => exact absurd h (splitSlash_ne_nil rest)
      | cons a t =>
        cases t with
        | nil =>
          show c :: a = c :: rest
          rw [h] at ih
          show c :: a = c :: rest
          have : a = rest := ih
          rw [this]
        | cons b t2 =>
          show (c :: a) ++ '/' :: joinSlash (b :: t2) = c :: rest
          have h2 : a ++ '/' :: joinSlash (b :: t2) = rest := by
            rw [← ih, h]
            rfl
          simp [h2]

theorem splitSlash_replicate : ∀ (k : Nat),
    splitSlash (List.replicate k '/') = List.replicate (k + 1) ([] : List Char) := by
  intro k
  induction k with
  | zero => rfl
  | succ k ih => simp [List.replicate_succ, splitSlash, ih]

theorem stripParams_join_params : ∀ (segs : List (List Char)),
    (∀ s ∈ segs, s = [] ∨ isParamSeg s = true) →
    stripParams (joinSlash segs) = List.replicate (segs.length - 1) '/' := by
  intro segs
  induction segs with
  | nil => intro _; rfl
  | cons s rest ih =>
    intro h
    have hs := h s (List.mem_cons_self s rest)
    have hrest : ∀ x ∈ rest, x = [] ∨ isParamSeg x = true :=
      fun x hx => h x (List.mem_cons_of_mem s hx)
    cases rest with
    | nil =>
      show stripParams (joinSlash [s]) = []
      rcases hs with hnil | hps
      · subst hnil; rfl
      · obtain ⟨pre, hdecomp, hne, hnb⟩ := isParamSeg_decompose s hps
        show stripParams s = []
        rw [hdecomp]
        have : '{' :: (pre ++ ['}']) = '{' :: (pre ++ '}' :: ([] : List Char)) := rfl
        rw [this, stripParams_paramseg pre [] hne hnb]
        rfl
    | cons s2 t =>
      have ihr := ih hrest
      have hlen : (s2 :: t).length - 1 + 1 = (s2 :: t).length := by simp
      rcases hs with hnil | hps
      · subst hnil
        show stripParams ([] ++ '/' :: joinSlash (s2 :: t)) = _
        rw [List.nil_append, stripParams_slash, ihr]
        show '/' :: List.replicate ((s2 :: t).length - 1) '/'
            = List.replicate ((s2 :: t).length + 1 - 1) '/'
        have harith : (s2 :: t).length + 1 - 1 = ((s2 :: t).length - 1) + 1 := by
          simp
        rw [harith, List.replicate_succ]
      · obtain ⟨pre, hdecomp, hne, hnb⟩ := isParamSeg_decompose s hps
        rw [hdecomp]
        show stripParams (('{' :: (pre ++ ['}'])) ++ '/' :: joinSlash (s2 :: t)) = _
        have hassoc : ('{' :: (pre ++ ['}'])) ++ '/' :: joinSlash (s2 :: t)
            = '{' :: (pre ++ '}' :: ('/' :: joinSlash (s2 :: t))) := by simp
        rw [hassoc, stripParams_paramseg pre _ hne hnb, stripParams_slash, ihr]
        show '/' :: List.replicate ((s2 :: t).length - 1) '/'
            = List.replicate ((s2 :: t).length + 1 - 1) '/'
        have harith : (s2 :: t).length + 1 - 1 = ((s2 :: t).length - 1) + 1 := by
          simp
        rw [harith, List.replicate_succ]

theorem cleanParts_of_params (path : String)
    (h : ∀ seg ∈ splitSlash path.data, seg = [] ∨ isParamSeg seg = true) :
    cleanParts path = [] := by
  unfold cleanParts
  have h1 : stripParams path.data = List.replicate ((splitSlash path.data).length - 1) '/' := by
    conv_lhs => rw [← joinSlash_splitSlash path.data]
    exact stripParams_join_params _ h
  have h2 : (splitSlash path.data).length - 1 + 1 = (splitSlash path.data).length := by
    have hne := splitSlash_ne_nil path.data
    have : 0 < (splitSlash path.data).length := List.length_pos.mpr hne
    omega
  rw [h1, splitSlash_replicate, h2]
  rw [List.filter_eq_nil]
  intro a ha
  have : a = [] := List.eq_of_mem_replicate ha
  simp [this]

/-- C9: the synthesizer's concrete naming scenarios — `/users/\x7bid\x7d`
with GET names `getUsers`, `/items` with POST names `postItems`, and for any
path every one of whose segments is a `\x7bparam\x7d` block the name is the
verb followed by the literal suffix `Root`. -/
theorem C9_name_scenarios (path method : String)
    (h : ∀ seg ∈ splitSlash path.data, seg = [] ∨ isParamSeg seg = true) :
    _generate_operation_id "/users/{id}" "GET" = "getUsers"
    ∧ _generate_operation_id "/items" "POST" = "postItems"
    ∧ _generate_operation_id path method = methodVerb path method ++ "Root" := by
  refine ⟨by decide, by decide, ?_⟩
  have hcp : cleanParts path = [] := cleanParts_of_params path h
  simp [_generate_operation_id, hcp]

/-- Witness for C9 at the all-parameter path `/\x7bid\x7d`. -/
theorem C9_name_scenarios_witness :
    (∀ seg ∈ splitSlash "/{id}".data, seg = [] ∨ isParamSeg seg = true)
    ∧ (_generate_operation_id "/users/{id}" "GET" = "getUsers"
      ∧ _generate_operation_id "/items" "POST" = "postItems"
      ∧ _generate_operation_id "/{id}" "GET" = methodVerb "/{id}" "GET" ++ "Root") :=
  ⟨by decide, C9_name_scenarios "/{id}" "GET" (by decide)⟩

/-- Whether a rendered request-config fragment contains the `data: args`
body binding. -/
def hasDataArgs (s : String) : Bool := containsSub "data: args,".data s.data

theorem request_config_eq (g : OpenAPIToMCP) (path method : String) (op : JVal) :
    _generate_request_config (g._generate_tool path method op)
      = (if pyTruthy (jgetD op "requestBody" JVal.null)
            && (["POST", "PUT", "PATCH"] : List String).contains (pyUpperStr method)
         then "\n" ++ "        data: args," else "") := rfl

/-- C5 counterexample: an operation that declares `requestBody: \x7b\x7d`
(present but empty) with method POST gets no `data: args` binding — the
source tests Python truthiness of the stored request body, not presence. -/
theorem C5_empty_requestBody_not_bound :
    hasKey (JVal.obj [("requestBody", JVal.obj [])]) "requestBody" = true
    ∧ _generate_request_config
        (gEmpty._generate_tool "/a" "POST" (JVal.obj [("requestBody", JVal.obj [])])) = ""
    ∧ hasDataArgs (_generate_request_config
        (gEmpty._generate_tool "/a" "POST" (JVal.obj [("requestBody", JVal.obj [])]))) = false :=
  ⟨rfl, rfl, rfl⟩

/-- C5 (amended): the rendered request configuration contains the
`data: args` binding exactly when the operation's `requestBody` is truthy
(present and non-empty) and the method upper-cases into POST, PUT or PATCH;
for GET and DELETE the configuration is empty, whatever the operation
declares. -/
theorem C5_body_binding_iff (g : OpenAPIToMCP) (path method : String) (op : JVal) :
    hasDataArgs (_generate_request_config (g._generate_tool path method op))
      = (pyTruthy (jgetD op "requestBody" JVal.null)
          && (["POST", "PUT", "PATCH"] : List String).contains (pyUpperStr method))
    ∧ ((["GET", "DELETE"] : List String).contains (pyUpperStr method) = true →
        _generate_request_config (g._generate_tool path method op) = "") := by
  constructor
  · rw [request_config_eq]
    cases hc : (pyTruthy (jgetD op "requestBody" JVal.null)
        && (["POST", "PUT", "PATCH"] : List String).contains (pyUpperStr method)) with
    | true => decide
    | false => decide
  · intro hgd
    rw [request_config_eq]
    have hmem : pyUpperStr method = "GET" ∨ pyUpperStr method = "DELETE" := by
      have h := List.mem_of_elem_eq_true hgd
      simpa using h
    have hpost : (["POST", "PUT", "PATCH"] : List String).contains (pyUpperStr method) = false := by
      rcases hmem with h | h <;> rw [h] <;> decide
    rw [hpost, Bool.and_false]
    rfl

/-- Witness for C5 at a GET operation that declares a (truthy) body. -/
theorem C5_body_binding_iff_witness :
    (["GET", "DELETE"] : List String).contains (pyUpperStr "GET") = true
    ∧ _generate_request_config (gEmpty._generate_tool "/a" "GET"
        (JVal.obj [("requestBody", JVal.obj [("content", JVal.obj [])])])) = "" :=
  ⟨by decide, (C5_body_binding_iff gEmpty "/a" "GET"
      (JVal.obj [("requestBody", JVal.obj [("content", JVal.obj [])])])).2 (by decide)⟩

/-- The security-scheme registry the generator consults. -/
def securitySchemesOf (g : OpenAPIToMCP) : List (String × JVal) :=
  objEntries (jgetD g.components "securitySchemes" (JVal.obj []))

/-- The first scheme (in registry order) whose `type` is `apiKey`. -/
def firstApiKeyScheme (l : List (String × JVal)) : Option JVal :=
  (l.find? (fun kv => isStrEq (jgetD kv.2 "type" JVal.null) "apiKey")).map Prod.snd

theorem firstApiKeyHeader_eq : ∀ (l : List (String × JVal)),
    firstApiKeyHeader l = (match firstApiKeyScheme l with
      | some sch => "'" ++ pyStr (jgetD sch "name" (JVal.str "X-API-Key")) ++ "': API_KEY,"
      | none => "") := by
  intro l
  induction l with
  | nil => rfl
  | cons kv rest ih =>
    by_cases h : isStrEq (jgetD kv.2 "type" JVal.null) "apiKey" = true
    · simp [firstApiKeyHeader, firstApiKeyScheme, List.find?_cons_of_pos, h]
    · have hb : isStrEq (jgetD kv.2 "type" JVal.null) "apiKey" = false :=
        Bool.eq_false_iff.mpr h
      rw [show firstApiKeyHeader (kv :: rest) = firstApiKeyHeader rest by
        obtain ⟨a, b⟩ := kv
        simp [firstApiKeyHeader, hb]]
      rw [ih]
      have : firstApiKeyScheme (kv :: rest) = firstApiKeyScheme rest := by
        unfold firstApiKeyScheme
        simp only [List.find?_cons, hb, cond_false]
      rw [this]

/-- C8: when some scheme in `components.securitySchemes` has type `apiKey`,
the rendered authentication fragment is exactly one header line carrying the
first such scheme's header name bound to the runtime credential; with no
such scheme the fragment is the empty string. -/
theorem C8_auth_header (g : OpenAPIToMCP) :
    (∀ sch : JVal, firstApiKeyScheme (securitySchemesOf g) = some sch →
      _generate_auth_headers g.get_security_info
        = "'" ++ pyStr (jgetD sch "name" (JVal.str "X-API-Key")) ++ "': API_KEY,")
    ∧ (firstApiKeyScheme (securitySchemesOf g) = none →
        _generate_auth_headers g.get_security_info = "") := by
  have hred : _generate_auth_headers g.get_security_info
      = firstApiKeyHeader (securitySchemesOf g) := rfl
  constructor
  · intro sch hsch
    rw [hred, firstApiKeyHeader_eq, hsch]
  · intro hnone
    rw [hred, firstApiKeyHeader_eq, hnone]

/-- A document with an HTTP scheme followed by an API-key scheme naming the
header `X-Api-Key`. -/
def gAuth : OpenAPIToMCP := OpenAPIToMCP.ofSpec (JVal.obj [("components", JVal.obj
  [("securitySchemes", JVal.obj
    [("k1", JVal.obj [("type", JVal.str "http")]),
     ("k2", JVal.obj [("type", JVal.str "apiKey"), ("name", JVal.str "X-Api-Key")])])])])

/-- Witness for C8 at a registry whose first API-key scheme names
`X-Api-Key`. -/
theorem C8_auth_header_witness :
    firstApiKeyScheme (securitySchemesOf gAuth)
        = some (JVal.obj [("type", JVal.str "apiKey"), ("name", JVal.str "X-Api-Key")])
    ∧ _generate_auth_headers gAuth.get_security_info
        = "'" ++ pyStr (jgetD (JVal.obj [("type", JVal.str "apiKey"),
            ("name", JVal.str "X-Api-Key")]) "name" (JVal.str "X-API-Key")) ++ "': API_KEY," :=
  ⟨rfl, (C8_auth_header gAuth).1
    (JVal.obj [("type", JVal.str "apiKey"), ("name", JVal.str "X-Api-Key")]) rfl⟩

theorem jgetD_of_hasKey_false (j : JVal) (k : String) (d : JVal) (h : hasKey j k = false) :
    jgetD j k d = d := by
  cases j with
  | obj kvs =>
    simp only [hasKey] at h
    cases hd : dget kvs k with
    | none => simp [jgetD, hd]
    | some v => rw [hd] at h; simp at h
  | null => rfl
  | bool b => rfl
  | num n => rfl
  | str s => rfl
  | arr xs => rfl

/-- C7: when an operation's JSON body schema is a bare reference that does
not resolve in one hop (its pointer lacks the registry prefix, or the named
entry is missing), input-schema synthesis still succeeds and yields exactly
the parameter-only schema — the body contributes no properties and no
required names. -/
theorem C7_unresolved_ref (g : OpenAPIToMCP) (op : JVal) (s : String)
    (href : rawBodySchema op = JVal.obj [("$ref", JVal.str s)])
    (hunres : (listStartsWith "#/components/schemas/".data s.data
        && hasKey (jgetD g.components "schemas" (JVal.obj [])) (refLastSeg s)) = false) :
    g._generate_input_schema op = JVal.obj
      [("type", JVal.str "object"),
       ("properties", JVal.obj (mergeEntries (paramEntriesAt "path" (opParams op)
          ++ paramEntriesAt "query" (opParams op)))),
       ("required", JVal.arr ((requiredNamesAt "path" (opParams op)
          ++ requiredNamesAt "query" (opParams op)).map JVal.str))] := by
  have htype : isStrEq (jgetD (effBodySchema g op) "type" JVal.null) "object" = false := by
    unfold effBodySchema
    rw [href]
    unfold resolveBodySchema
    by_cases hpre : listStartsWith "#/components/schemas/".data s.data = true
    · have hmiss : hasKey (jgetD g.components "schemas" (JVal.obj [])) (refLastSeg s) = false := by
        rw [hpre] at hunres
        simpa using hunres
      have hk : hasKey (JVal.obj [("$ref", JVal.str s)]) "$ref" = true := rfl
      have ha : asStr (jgetD (JVal.obj [("$ref", JVal.str s)]) "$ref" JVal.null) = s := rfl
      rw [if_pos hk]
      rw [ha, if_pos hpre]
      rw [jgetD_of_hasKey_false _ _ _ hmiss]
      rfl
    · have hpre' : listStartsWith "#/components/schemas/".data s.data = false :=
        Bool.eq_false_iff.mpr hpre
      have hk : hasKey (JVal.obj [("$ref", JVal.str s)]) "$ref" = true := rfl
      have ha : asStr (jgetD (JVal.obj [("$ref", JVal.str s)]) "$ref" JVal.null) = s := rfl
      rw [if_pos hk, ha, if_neg hpre]
      rfl
  have hba : bodyActive g op = false := by
    unfold bodyActive
    rw [htype, Bool.and_false]
  rw [input_schema_decomp]
  simp [bodyEntries, bodyRequiredNames, hba]

/-- An operation whose JSON body schema is a dangling reference. -/
def opBadRef : JVal := JVal.obj [("requestBody", JVal.obj [("content", JVal.obj
  [("application/json", JVal.obj [("schema", JVal.obj
    [("$ref", JVal.str "#/components/schemas/Missing")])])])])]

/-- Witness for C7 at a reference whose target is absent from the registry. -/
theorem C7_unresolved_ref_witness :
    rawBodySchema opBadRef = JVal.obj [("$ref", JVal.str "#/components/schemas/Missing")]
    ∧ (listStartsWith "#/components/schemas/".data "#/components/schemas/Missing".data
        && hasKey (jgetD gEmpty.components "schemas" (JVal.obj []))
            (refLastSeg "#/components/schemas/Missing")) = false
    ∧ gEmpty._generate_input_schema opBadRef = JVal.obj
        [("type", JVal.str "object"),
         ("properties", JVal.obj (mergeEntries (paramEntriesAt "path" (opParams opBadRef)
            ++ paramEntriesAt "query" (opParams opBadRef)))),
         ("required", JVal.arr ((requiredNamesAt "path" (opParams opBadRef)
            ++ requiredNamesAt "query" (opParams opBadRef)).map JVal.str))] :=
  ⟨rfl, by decide, C7_unresolved_ref gEmpty opBadRef "#/components/schemas/Missing" rfl (by decide)⟩

theorem pyIn_arr_str (n : String) (names : List String) :
    pyIn n (JVal.arr (names.map JVal.str)) = true ↔ n ∈ names := by
  induction names with
  | nil => simp [pyIn]
  | cons a t ih =>
    simp only [List.map_cons, pyIn, List.any_cons] at ih ⊢
    constructor
    · intro h
      rcases Bool.or_eq_true_iff.mp h with h1 | h2
      · have : a = n := by simpa [isStrEq] using h1
        exact this ▸ List.mem_cons_self a t
      · exact List.mem_cons_of_mem a (ih.mp h2)
    · intro h
      rcases List.mem_cons.mp h with h1 | h2
      · subst h1
        apply Bool.or_eq_true_iff.mpr
        exact Or.inl (by simp [isStrEq])
      · exact Bool.or_eq_true_iff.mpr (Or.inr (ih.mpr h2))

theorem interfacesOf_skip (pre post : List (String × JVal)) (name : String) (schema : JVal)
    (h : _generate_interface name schema = "") :
    interfacesOf (pre ++ (name, schema) :: post) = interfacesOf (pre ++ post) := by
  unfold interfacesOf
  rw [List.map_append, List.map_append, List.map_cons, List.filter_append, List.filter_append,
    List.filter_cons]
  simp only [h]
  rw [if_neg (by decide)]

/-- C6: a registry schema with top-level `type == object` renders as one
interface block whose lines are, per property in declaration order, an
optional description comment followed by exactly one field line; the field
line carries the `?` marker exactly when the property name is not in the
schema's own `required` list; a schema whose top-level type is not `object`
renders as the empty string and contributes nothing to the joined
interfaces output. -/
theorem C6_interface_fields (name : String) (schema : JVal) :
    (isStrEq (jgetD schema "type" JVal.null) "object" = true →
      _generate_interface name schema
        = String.intercalate "\n" (("interface " ++ name ++ " \x7b")
            :: ((objEntries (jgetD schema "properties" (JVal.obj []))).flatMap
                  (interfacePropLines (jgetD schema "required" (JVal.arr []))) ++ ["\x7d"]))
      ∧ (∀ kv : String × JVal, kv ∈ objEntries (jgetD schema "properties" (JVal.obj [])) →
          (interfacePropLines (jgetD schema "required" (JVal.arr [])) kv).getLast?
            = some ("  " ++ kv.1
                ++ (if pyIn kv.1 (jgetD schema "required" (JVal.arr [])) then "" else "?")
                ++ ": " ++ _get_typescript_type kv.2 ++ ";"))
      ∧ (∀ (names : List String) (n : String),
          jgetD schema "required" (JVal.arr []) = JVal.arr (names.map JVal.str) →
          (pyIn n (jgetD schema "required" (JVal.arr [])) = true ↔ n ∈ names)))
    ∧ (isStrEq (jgetD schema "type" JVal.null) "object" = false →
        _generate_interface name schema = ""
        ∧ ∀ (pre post : List (String × JVal)),
            interfacesOf (pre ++ (name, schema) :: post) = interfacesOf (pre ++ post)) := by
  constructor
  · intro hobj
    refine ⟨?_, ?_, ?_⟩
    · unfold _generate_interface
      rw [hobj]
      rfl
    · intro kv _
      unfold interfacePropLines
      rw [List.getLast?_concat]
    · intro names n hreq
      rw [hreq]
      exact pyIn_arr_str n names
  · intro hno
    have hempty : _generate_interface name schema = "" := by
      unfold _generate_interface
      rw [hno]
      rfl
    exact ⟨hempty, fun pre post => interfacesOf_skip pre post name schema hempty⟩

/-- A registry schema with one required numeric field and one optional
described string field. -/
def uSchema : JVal := JVal.obj [("type", JVal.str "object"),
  ("properties", JVal.obj
    [("id", JVal.obj [("type", JVal.str "integer")]),
     ("name", JVal.obj [("type", JVal.str "string"), ("description", JVal.str "the name")])]),
  ("required", JVal.arr [JVal.str "id"])]

/-- Witness for C6 at a concrete object schema. -/
theorem C6_interface_fields_witness :
    isStrEq (jgetD uSchema "type" JVal.null) "object" = true
    ∧ _generate_interface "User" uSchema
        = String.intercalate "\n" (("interface " ++ "User" ++ " \x7b")
            :: ((objEntries (jgetD uSchema "properties" (JVal.obj []))).flatMap
                  (interfacePropLines (jgetD uSchema "required" (JVal.arr []))) ++ ["\x7d"])) :=
  ⟨by decide, ((C6_interface_fields "User" uSchema).1 (by decide)).1⟩

theorem lastLookup_append (a b : List (String × JVal)) (k : String) :
    lastLookup (a ++ b) k = (lastLookup b k).or (lastLookup a k) := by
  unfold lastLookup
  rw [List.filter_append, List.getLast?_append, Option.map_or']

theorem lastLookup_single (kv : String × JVal) (k : String) :
    lastLookup [kv] k = (if kv.1 == k then some kv.2 else none) := by
  by_cases hk : (kv.1 == k) = true
  · simp [lastLookup, List.filter_cons, hk]
  · have hk' : (kv.1 == k) = false := Bool.eq_false_iff.mpr hk
    simp [lastLookup, List.filter_cons, hk']

theorem lastLookup_map_entry (f : JVal → JVal) (l : List (String × JVal)) (k : String) :
    lastLookup (l.map (fun kv => (kv.1, f kv.2))) k = (lastLookup l k).map f := by
  induction l using List.reverseRecOn with
  | nil => rfl
  | append_singleton t kv ih =>
    rw [List.map_append, List.map_cons, List.map_nil, lastLookup_append, lastLookup_append,
      lastLookup_single, lastLookup_single, ih, Option.map_or']
    by_cases hk : (kv.1 == k) = true
    · simp [hk]
    · have hk' : (kv.1 == k) = false := Bool.eq_false_iff.mpr hk
      simp [hk']

theorem dget_cons_ne (k1 : String) (v1 : JVal) (rest : List (String × JVal)) (k : String)
    (h : k1 ≠ k) : dget ((k1, v1) :: rest) k = dget rest k := by
  simp [dget, h]

theorem dget_filter_cons_ne (k1 : String) (v1 : JVal) (rest : List (String × JVal))
    (p : String × JVal → Bool) (k : String) (h : k1 ≠ k) :
    dget (((k1, v1) :: rest).filter p) k = dget (rest.filter p) k := by
  rw [List.filter_cons]
  by_cases hp : p (k1, v1) = true
  · simp only [hp, if_true]
    exact dget_cons_ne k1 v1 _ k h
  · simp only [hp, Bool.false_eq_true, if_false]

theorem dget_filter_none (l : List (String × JVal)) (p : String × JVal → Bool) (k : String)
    (h : ∀ kv ∈ l, kv.1 ≠ k) : dget (l.filter p) k = none := by
  induction l with
  | nil => rfl
  | cons kv t ih =>
    have hk : kv.1 ≠ k := h kv (List.mem_cons_self kv t)
    have ht : ∀ x ∈ t, x.1 ≠ k := fun x hx => h x (List.mem_cons_of_mem kv hx)
    obtain ⟨k1, v1⟩ := kv
    rw [List.filter_cons]
    by_cases hp : p (k1, v1) = true
    · simp only [hp, if_true]
      rw [dget_cons_ne k1 v1 _ k hk]
      exact ih ht
    · simp only [hp, Bool.false_eq_true, if_false]
      exact ih ht

theorem dget_mem (l : List (String × JVal)) (k : String) (v : JVal) (h : dget l k = some v) :
    (k, v) ∈ l := by
  induction l with
  | nil => simp [dget] at h
  | cons kv t ih =>
    obtain ⟨k1, v1⟩ := kv
    by_cases hk : k1 = k
    · subst hk
      simp [dget] at h
      subst h
      exact List.mem_cons_self _ _
    · simp [dget, hk] at h
      exact List.mem_cons_of_mem _ (ih h)

theorem jgetD_eq_of_hasKey (j : JVal) (k : String) (d1 d2 : JVal) (h : hasKey j k = true) :
    jgetD j k d1 = jgetD j k d2 := by
  cases j with
  | obj kvs =>
    simp only [hasKey] at h
    cases hd : dget kvs k with
    | none => rw [hd] at h; simp at h
    | some v => simp [jgetD, hd]
  | null => simp [hasKey] at h
  | bool b => simp [hasKey] at h
  | num n => simp [hasKey] at h
  | str s => simp [hasKey] at h
  | arr xs => simp [hasKey] at h

/-- An operation whose inline JSON body schema has one property `x` with no
fields at all. -/
def opNoDesc : JVal := JVal.obj [("requestBody", JVal.obj [("content", JVal.obj
  [("application/json", JVal.obj [("schema", JVal.obj
    [("type", JVal.str "object"),
     ("properties", JVal.obj [("x", JVal.obj [])])])])])])]

/-- C2 counterexample: the body property `x` has no `description` in the
source, yet its synthesized entry carries a `description` key bound to the
empty string — the source defaults the description to `''` and the
`is not None` filter keeps it, so the field is not omitted. -/
theorem C2_missing_description_emitted :
    hasKey (JVal.obj []) "description" = false
    ∧ dget (propsOf (gEmpty._generate_input_schema opNoDesc)) "x"
        = some (JVal.obj [("type", JVal.str "string"), ("description", JVal.str "")])
    ∧ hasKey (JVal.obj [("type", JVal.str "string"), ("description", JVal.str "")])
        "description" = true :=
  ⟨rfl, rfl, rfl⟩

/-- The five body-property fields the synthesizer copies. -/
def copiedFieldKeys : List String := ["type", "description", "enum", "minimum", "maximum"]

/-- None of the copied fields of a source property is an explicit JSON null
(to `dict.get`, an explicit null is indistinguishable from absence). -/
def noExplicitNull (d : JVal) : Bool :=
  copiedFieldKeys.all (fun k => !(jgetD d k (JVal.bool true)).isNull)

/-- The three optional copied fields, before the `None` filter. -/
def optTail (d : JVal) : List (String × JVal) :=
  [("enum", jgetD d "enum" JVal.null), ("minimum", jgetD d "minimum" JVal.null),
   ("maximum", jgetD d "maximum" JVal.null)]

/-- The entry list of `bodyPropEntry` with the two always-kept fields in
front (valid when neither `type` nor `description` is an explicit null). -/
def entryList (d : JVal) : List (String × JVal) :=
  ("type", jgetD d "type" (JVal.str "string"))
    :: ("description", jgetD d "description" (JVal.str ""))
    :: (optTail d).filter (fun kv => !kv.2.isNull)

theorem dget_cons_self (k : String) (v : JVal) (rest : List (String × JVal)) :
    dget ((k, v) :: rest) k = some v := by
  simp [dget]

/-- C2 (amended): for a body property of an active JSON request body, the
synthesized entry is the filtered five-field record: `type` is copied with
default `string`; `description` is always present, copied with default the
empty string (an absent source description is emitted as `''`, not
omitted); `enum`, `minimum` and `maximum` are present exactly when present
in the source and are copied unchanged; no key outside these five ever
appears. -/
theorem C2_body_property_entry (g : OpenAPIToMCP) (op : JVal) (n : String) (d : JVal)
    (hact : bodyActive g op = true)
    (hsrc : lastLookup (objEntries (jgetD (effBodySchema g op) "properties" (JVal.obj []))) n
        = some d)
    (hnn : noExplicitNull d = true) :
    dget (propsOf (g._generate_input_schema op)) n = some (bodyPropEntry d)
    ∧ jgetD (bodyPropEntry d) "type" JVal.null = jgetD d "type" (JVal.str "string")
    ∧ hasKey (bodyPropEntry d) "description" = true
    ∧ jgetD (bodyPropEntry d) "description" JVal.null = jgetD d "description" (JVal.str "")
    ∧ (∀ k, k ∈ (["enum", "minimum", "maximum"] : List String) →
        hasKey (bodyPropEntry d) k = hasKey d k
        ∧ (hasKey d k = true → jgetD (bodyPropEntry d) k JVal.null = jgetD d k JVal.null))
    ∧ (∀ k, hasKey (bodyPropEntry d) k = true → k ∈ copiedFieldKeys) := by
  have hfacts := hnn
  simp only [noExplicitNull, copiedFieldKeys, List.all_cons, List.all_nil, Bool.and_true,
    Bool.and_eq_true, Bool.not_eq_true'] at hfacts
  obtain ⟨ht0, hd0, he0, hm0, hx0⟩ := hfacts
  have hkeyed : ∀ (k : String) (dv : JVal), dv.isNull = false →
      (jgetD d k (JVal.bool true)).isNull = false → (jgetD d k dv).isNull = false := by
    intro k dv hdv hfact
    by_cases hk : hasKey d k = true
    · rw [jgetD_eq_of_hasKey d k dv (JVal.bool true) hk]
      exact hfact
    · rw [jgetD_of_hasKey_false d k dv (Bool.eq_false_iff.mpr hk)]
      exact hdv
  have hopt : ∀ (k : String), (jgetD d k (JVal.bool true)).isNull = false →
      (jgetD d k JVal.null).isNull = !(hasKey d k) := by
    intro k hfact
    by_cases hk : hasKey d k = true
    · rw [jgetD_eq_of_hasKey d k JVal.null (JVal.bool true) hk, hk]
      exact hfact
    · rw [jgetD_of_hasKey_false d k JVal.null (Bool.eq_false_iff.mpr hk),
        Bool.eq_false_iff.mpr hk]
      rfl
  have htn : (jgetD d "type" (JVal.str "string")).isNull = false := hkeyed _ _ rfl ht0
  have hdn : (jgetD d "description" (JVal.str "")).isNull = false := hkeyed _ _ rfl hd0
  have hen := hopt "enum" he0
  have hmn := hopt "minimum" hm0
  have hxn := hopt "maximum" hx0
  have hentry : bodyPropEntry d = JVal.obj (entryList d) := by
    unfold bodyPropEntry entryList optTail
    rw [List.filter_cons, List.filter_cons]
    simp [htn, hdn]
  have hdg_type : dget (entryList d) "type" = some (jgetD d "type" (JVal.str "string")) := by
    unfold entryList
    exact dget_cons_self _ _ _
  have hdg_desc : dget (entryList d) "description"
      = some (jgetD d "description" (JVal.str "")) := by
    unfold entryList
    rw [dget_cons_ne _ _ _ _ (by decide)]
    exact dget_cons_self _ _ _
  have hdg_enum : dget (entryList d) "enum"
      = (if hasKey d "enum" then some (jgetD d "enum" JVal.null) else none) := by
    unfold entryList optTail
    rw [dget_cons_ne _ _ _ _ (by decide), dget_cons_ne _ _ _ _ (by decide)]
    by_cases hk : hasKey d "enum" = true
    · have hnul : (!(jgetD d "enum" JVal.null).isNull) = true := by rw [hen, hk]; rfl
      rw [List.filter_cons, if_pos hnul, dget_cons_self]
      simp [hk]
    · have hk2 : hasKey d "enum" = false := Bool.eq_false_iff.mpr hk
      have hnul : ¬((!(jgetD d "enum" JVal.null).isNull) = true) := by
        rw [hen, hk2]
        simp
      rw [List.filter_cons, if_neg hnul]
      rw [dget_filter_none]
      · simp [hk2]
      · intro kv hkv
        rcases List.mem_cons.mp hkv with h1 | h1
        · rw [h1]
          exact (show ("minimum" : String) ≠ "enum" by decide)
        · have h2 : kv = ("maximum", jgetD d "maximum" JVal.null) := by simpa using h1
          rw [h2]
          exact (show ("maximum" : String) ≠ "enum" by decide)
  have hdg_min : dget (entryList d) "minimum"
      = (if hasKey d "minimum" then some (jgetD d "minimum" JVal.null) else none) := by
    unfold entryList optTail
    rw [dget_cons_ne _ _ _ _ (by decide), dget_cons_ne _ _ _ _ (by decide),
      dget_filter_cons_ne _ _ _ _ _ (by decide)]
    by_cases hk : hasKey d "minimum" = true
    · have hnul : (!(jgetD d "minimum" JVal.null).isNull) = true := by rw [hmn, hk]; rfl
      rw [List.filter_cons, if_pos hnul, dget_cons_self]
      simp [hk]
    · have hk2 : hasKey d "minimum" = false := Bool.eq_false_iff.mpr hk
      have hnul : ¬((!(jgetD d "minimum" JVal.null).isNull) = true) := by
        rw [hmn, hk2]
        simp
      rw [List.filter_cons, if_neg hnul]
      rw [dget_filter_none]
      · simp [hk2]
      · intro kv hkv
        have h2 : kv = ("maximum", jgetD d "maximum" JVal.null) := by simpa using hkv
        rw [h2]
        exact (show ("maximum" : String) ≠ "minimum" by decide)
  have hdg_max : dget (entryList d) "maximum"
      = (if hasKey d "maximum" then some (jgetD d "maximum" JVal.null) else none) := by
    unfold entryList optTail
    rw [dget_cons_ne _ _ _ _ (by decide), dget_cons_ne _ _ _ _ (by decide),
      dget_filter_cons_ne _ _ _ _ _ (by decide), dget_filter_cons_ne _ _ _ _ _ (by decide)]
    by_cases hk : hasKey d "maximum" = true
    · have hnul : (!(jgetD d "maximum" JVal.null).isNull) = true := by rw [hxn, hk]; rfl
      rw [List.filter_cons, if_pos hnul, dget_cons_self]
      simp [hk]
    · have hk2 : hasKey d "maximum" = false := Bool.eq_false_iff.mpr hk
      have hnul : ¬((!(jgetD d "maximum" JVal.null).isNull) = true) := by
        rw [hxn, hk2]
        simp
      rw [List.filter_cons, if_neg hnul]
      simp [dget, hk2]
  refine ⟨?_, ?_, ?_, ?_, ?_, ?_⟩
  · have hp : propsOf (g._generate_input_schema op)
        = mergeEntries (paramEntriesAt "path" (opParams op)
            ++ paramEntriesAt "query" (opParams op) ++ bodyEntries g op) := by
      rw [input_schema_decomp]
      exact propsOf_triple _ _
    rw [hp, mergeEntries, dget_mergeInto, lastLookup_append]
    have hbe : bodyEntries g op
        = (objEntries (jgetD (effBodySchema g op) "properties" (JVal.obj []))).map
            (fun kv => (kv.1, bodyPropEntry kv.2)) := by
      simp [bodyEntries, hact]
    rw [hbe, lastLookup_map_entry, hsrc]
    rfl
  · rw [hentry]
    simp [jgetD, hdg_type]
  · rw [hentry]
    simp [hasKey, hdg_desc]
  · rw [hentry]
    simp [jgetD, hdg_desc]
  · intro k hk
    rcases List.mem_cons.mp hk with h1 | hk
    · subst h1
      constructor
      · rw [hentry]
        by_cases hke : hasKey d "enum" = true
        · rw [hke]
          show (dget (entryList d) "enum").isSome = true
          rw [hdg_enum, hke]
          rfl
        · have hke2 : hasKey d "enum" = false := Bool.eq_false_iff.mpr hke
          rw [hke2]
          show (dget (entryList d) "enum").isSome = false
          rw [hdg_enum, hke2]
          rfl
      · intro hke
        rw [hentry]
        show (dget (entryList d) "enum").getD JVal.null = jgetD d "enum" JVal.null
        rw [hdg_enum, hke]
        rfl
    rcases List.mem_cons.mp hk with h1 | hk
    · subst h1
      constructor
      · rw [hentry]
        by_cases hkm : hasKey d "minimum" = true
        · rw [hkm]
          show (dget (entryList d) "minimum").isSome = true
          rw [hdg_min, hkm]
          rfl
        · have hkm2 : hasKey d "minimum" = false := Bool.eq_false_iff.mpr hkm
          rw [hkm2]
          show (dget (entryList d) "minimum").isSome = false
          rw [hdg_min, hkm2]
          rfl
      · intro hkm
        rw [hentry]
        show (dget (entryList d) "minimum").getD JVal.null = jgetD d "minimum" JVal.null
        rw [hdg_min, hkm]
        rfl
    · have h1 : k = "maximum" := by simpa using hk
      subst h1
      constructor
      · rw [hentry]
        by_cases hkx : hasKey d "maximum" = true
        · rw [hkx]
          show (dget (entryList d) "maximum").isSome = true
          rw [hdg_max, hkx]
          rfl
        · have hkx2 : hasKey d "maximum" = false := Bool.eq_false_iff.mpr hkx
          rw [hkx2]
          show (dget (entryList d) "maximum").isSome = false
          rw [hdg_max, hkx2]
          rfl
      · intro hkx
        rw [hentry]
        show (dget (entryList d) "maximum").getD JVal.null = jgetD d "maximum" JVal.null
        rw [hdg_max, hkx]
        rfl
  · intro k hkk
    rw [hentry] at hkk
    have hsome : (dget (entryList d) k).isSome = true := hkk
    cases hd2 : dget (entryList d) k with
    | none => rw [hd2] at hsome; simp at hsome
    | some v =>
      have hmem := dget_mem _ _ _ hd2
      unfold entryList at hmem
      rcases List.mem_cons.mp hmem with h1 | hmem
      · have hs : k = "type" := congrArg Prod.fst h1
        rw [hs]
        decide
      rcases List.mem_cons.mp hmem with h1 | hmem
      · have hs : k = "description" := congrArg Prod.fst h1
        rw [hs]
        decide
      · have hmem2 := (List.mem_filter.mp hmem).1
        unfold optTail at hmem2
        rcases List.mem_cons.mp hmem2 with h1 | hmem2
        · have hs : k = "enum" := congrArg Prod.fst h1
          rw [hs]
          decide
        rcases List.mem_cons.mp hmem2 with h1 | hmem2
        · have hs : k = "minimum" := congrArg Prod.fst h1
          rw [hs]
          decide
        · have h1 : (k, v) = ("maximum", jgetD d "maximum" JVal.null) := by simpa using hmem2
          have hs : k = "maximum" := congrArg Prod.fst h1
          rw [hs]
          decide

/-- A body property with a declared type and minimum but no description. -/
def dProp : JVal := JVal.obj [("type", JVal.str "integer"), ("minimum", JVal.num 1)]

/-- An operation with an inline object body schema holding the property
`x : dProp`. -/
def opBodyProps : JVal := JVal.obj [("requestBody", JVal.obj [("content", JVal.obj
  [("application/json", JVal.obj [("schema", JVal.obj
    [("type", JVal.str "object"),
     ("properties", JVal.obj [("x", dProp)])])])])])]

/-- Witness for the amended C2 at the concrete body property `x`. -/
theorem C2_body_property_entry_witness :
    bodyActive gEmpty opBodyProps = true
    ∧ lastLookup (objEntries (jgetD (effBodySchema gEmpty opBodyProps) "properties"
        (JVal.obj []))) "x" = some dProp
    ∧ noExplicitNull dProp = true
    ∧ dget (propsOf (gEmpty._generate_input_schema opBodyProps)) "x"
        = some (bodyPropEntry dProp) :=
  ⟨by decide, rfl, by decide,
    (C2_body_property_entry gEmpty opBodyProps "x" dProp (by decide) rfl (by decide)).1⟩
